import Mathlib

/-!
Shallow embedding of the priority scheduler of this repository
(threads/thread.c, threads/synch.c, devices/timer.c) together with
theorems settling the spec claims about it.

Conventions: C `int` priorities and `int64_t` ticks become `Int`;
the `unsigned` semaphore value becomes `Nat`; thread and lock
identities become `Nat` handles.  The intrusive `struct list` of
`lib/kernel/list.c` is not among the given sources, so its three
operations used here (`list_insert_ordered`, `list_sort`,
`list_pop_front`) are modelled from the spec (section 4.2): ordered
insertion before the first element the comparator puts after the new
one, and a stable sort.
-/

namespace Pintos

/-- A thread record as read by the comparators and the donation code:
`priority` and `original_priority` are the effective and base priority
of thread.c, `waiting_lock` is the handle of the lock the thread is
blocked on (`NULL` = `none`), `wakeup_tick` the sleep deadline of
timer.c. -/
structure Thread where
  tid : Nat
  priority : Int
  original_priority : Int
  waiting_lock : Option Nat
  wakeup_tick : Int
  deriving Repr, DecidableEq

/-- Modelled from the spec (4.2): `list_insert_ordered` walks the list
and inserts the new element before the first element `y` for which the
comparator says the new element precedes `y`. -/
def list_insert_ordered (less : α → α → Bool) (x : α) : List α → List α
  | [] => [x]
  | y :: ys => if less x y then x :: y :: ys else y :: list_insert_ordered less x ys

/-- Modelled from the spec (4.2): helper of the stable sort, placing
`x` after every already-sorted element that strictly precedes it. -/
def sort_insert (less : α → α → Bool) (x : α) : List α → List α
  | [] => [x]
  | y :: ys => if less y x then y :: sort_insert less x ys else x :: y :: ys

/-- Modelled from the spec (4.2): `list_sort` is a stable sort with a
less-than comparator; equal elements keep their insertion order. -/
def list_sort (less : α → α → Bool) : List α → List α
  | [] => []
  | x :: xs => sort_insert less x (list_sort less xs)

/-- thread.c `compare_ready_priority`: descending effective priority,
strict. -/
def compare_ready_priority (a b : Thread) : Bool :=
  a.priority > b.priority

/-- thread.c `compare_donation_priority`: descending effective
priority of donors, strict. -/
def compare_donation_priority (a b : Thread) : Bool :=
  a.priority > b.priority

/-- timer.c `compare_tick`: ascending wakeup tick, strict. -/
def compare_tick (a b : Thread) : Bool :=
  a.wakeup_tick < b.wakeup_tick

/-- A waiters list is kept in non-increasing order of effective
priority. -/
def SortedByPriority (l : List Thread) : Prop :=
  l.Chain' (fun a b => b.priority ≤ a.priority)

/-! ## Semaphore (synch.c) -/

/-- synch.c `struct semaphore`: an unsigned counter and the waiters
list. -/
structure Semaphore where
  value : Nat
  waiters : List Thread
  deriving Repr, DecidableEq

/-- synch.c `sema_init`. -/
def sema_init (value : Nat) : Semaphore :=
  { value := value, waiters := [] }

/-- The outcome of one pass of `sema_down`'s loop body for the calling
thread: either the value was positive and is decremented, or the
caller was inserted into the waiters in priority order and blocked. -/
inductive DownResult where
  | acquired (s : Semaphore)
  | blocked (s : Semaphore)
  deriving Repr, DecidableEq

/-- synch.c `sema_down`, one attempt by thread `t`: with the value 0
the thread is inserted into `waiters` by `compare_ready_priority` and
blocks; otherwise the value is decremented. -/
def sema_down_step (t : Thread) (s : Semaphore) : DownResult :=
  if s.value = 0 then
    .blocked { value := 0, waiters := list_insert_ordered compare_ready_priority t s.waiters }
  else
    .acquired { value := s.value - 1, waiters := s.waiters }

/-- synch.c `sema_try_down`: decrement if positive, report success. -/
def sema_try_down (s : Semaphore) : Semaphore × Bool :=
  if s.value > 0 then ({ value := s.value - 1, waiters := s.waiters }, true)
  else (s, false)

/-- synch.c `sema_up`: if the waiters list is non-empty it is
re-sorted by `compare_ready_priority` and its front is popped and
unblocked; the value is then incremented.  (Sorting the empty list is
the identity, so the `list_empty` guard of the C code folds into the
match.)  Returns the new semaphore and the unblocked thread. -/
def sema_up (s : Semaphore) : Semaphore × Option Thread :=
  match list_sort compare_ready_priority s.waiters with
  | [] => ({ value := s.value + 1, waiters := [] }, none)
  | t :: rest => ({ value := s.value + 1, waiters := rest }, some t)

/-! ## Priority donation (synch.c `donate_priority`)

The donation walk reads and writes the `priority` field of threads
reached through `waiting_lock` and `lock->holder` edges, so it is
embedded over a store mapping thread handles to priorities and to the
lock each thread waits on, and lock handles to their holder. -/

/-- The store the donation walk of synch.c operates on: per-thread
effective priority, per-thread `waiting_lock` and per-lock `holder`. -/
structure DonationState where
  priority : Nat → Int
  waitingLock : Nat → Option Nat
  lockHolder : Nat → Option Nat

/-- synch.c `donate_priority`, the `while` loop: `fuel` is
`MAX_DEPTH - depth`, so the loop test `depth < MAX_DEPTH` becomes
`fuel` being a successor.  Each pass raises the holder's priority to
the current thread's when it is lower, then follows the holder's
`waiting_lock` to that lock's holder, or stops. -/
def donate_loop (curr : Nat) : Option Nat → Nat → DonationState → DonationState
  | none, _, st => st
  | some _, 0, st => st
  | some h, fuel + 1, st =>
    let st1 : DonationState :=
      if st.priority curr > st.priority h then
        { st with priority := fun t => if t = h then st.priority curr else st.priority t }
      else st
    match st1.waitingLock h with
    | some l => donate_loop curr (st1.lockHolder l) fuel st1
    | none => st1

/-- synch.c `donate_priority`: the walk starts at the given holder
with `depth = 0` and `MAX_DEPTH = 8`. -/
def donate_priority (curr : Nat) (holder : Option Nat) (st : DonationState) : DonationState :=
  donate_loop curr holder 8 st

/-- A blocked-holder chain: thread 0 is the acquiring thread, threads
`1..n` are holders; holder `i < n` waits on lock `i`, whose holder is
thread `i + 1`; holder `n` waits on nothing.  Thread 0's priority is
`currP`, holder `i`'s is `pr i`. -/
def chainState (currP : Int) (pr : Nat → Int) (n : Nat) : DonationState where
  priority := fun t => if t = 0 then currP else pr t
  waitingLock := fun t => if 1 ≤ t ∧ t < n then some t else none
  lockHolder := fun l => some (l + 1)

/-! ## The current thread's donor list (synch.c / thread.c) -/

/-- The fields of `struct thread` that `thread_set_priority`,
`recaculate_priority`, `remove_donations` and `lock_release` touch on
the current thread: its effective priority, its base
(`original_priority`), and its `donators` list, kept in descending
donor priority. -/
structure CurrentThread where
  priority : Int
  original_priority : Int
  donators : List Thread
  deriving Repr, DecidableEq

/-- synch.c `recaculate_priority`: reset the priority to the base one,
then raise it to the front donor's priority if that is larger. -/
def recaculate_priority (t : CurrentThread) : CurrentThread :=
  let t1 := { t with priority := t.original_priority }
  match t1.donators with
  | [] => t1
  | top :: _ =>
    if top.priority > t1.priority then { t1 with priority := top.priority } else t1

/-- thread.c `thread_set_priority`: store the new base priority and
recompute the effective one (the preemption check that follows does
not touch the fields modelled here). -/
def thread_set_priority (p : Int) (t : CurrentThread) : CurrentThread :=
  recaculate_priority { t with original_priority := p }

/-- thread.c `thread_get_priority`: the current effective priority. -/
def thread_get_priority (t : CurrentThread) : Int :=
  t.priority

/-- synch.c `remove_donations`, the traversal of `donators`: a donor
is unlinked exactly when its `waiting_lock` is the released lock. -/
def remove_donations (l : Nat) : List Thread → List Thread
  | [] => []
  | d :: ds =>
    if d.waiting_lock = some l then remove_donations l ds
    else d :: remove_donations l ds

/-- synch.c `lock_release`, the part acting on the current thread's
donation state: drop the donations tied to the released lock, then
recompute the effective priority.  (Clearing the holder and the
`sema_up` that follows do not touch these fields.) -/
def lock_release_donation (l : Nat) (t : CurrentThread) : CurrentThread :=
  recaculate_priority { t with donators := remove_donations l t.donators }

/-! ## The preemption check (thread.c `preemption_by_priority`)

`thread_yield` opens with `ASSERT(!intr_context())`, so a yield
attempted from an interrupt handler halts the kernel.  The check in
`preemption_by_priority` calls `thread_yield` directly, with no
`intr_context()` branch and no `intr_yield_on_return` deferral. -/

/-- What a run of the preemption check does: nothing, a yield, or the
kernel panic raised by `thread_yield`'s `ASSERT(!intr_context())`. -/
inductive PreemptOutcome where
  | stay
  | yielded
  | panic
  deriving Repr, DecidableEq

/-- thread.c `thread_yield` as called from the preemption check: in an
interrupt context its opening assertion fires. -/
def thread_yield_check (inIntr : Bool) : PreemptOutcome :=
  if inIntr then .panic else .yielded

/-- thread.c `preemption_by_priority`: if the ready list's front
outranks the current thread, call `thread_yield` — unconditionally,
whatever the context. -/
def preemption_by_priority (inIntr : Bool) (currPriority : Int)
    (ready_list : List Thread) : PreemptOutcome :=
  match ready_list with
  | [] => .stay
  | front :: _ =>
    if currPriority < front.priority then thread_yield_check inIntr else .stay

/-- synch.c `sema_up` together with the ready-queue effect of the
`thread_unblock` and the `preemption_by_priority` it performs:
the popped waiter joins the ready list in priority order, then the
preemption check runs in the caller's context. -/
def sema_up_run (inIntr : Bool) (currPriority : Int) (ready_list : List Thread)
    (s : Semaphore) : (Semaphore × Option Thread) × PreemptOutcome :=
  match sema_up s with
  | (s1, some t) =>
    ((s1, some t),
      preemption_by_priority inIntr currPriority
        (list_insert_ordered compare_ready_priority t ready_list))
  | (s1, none) => ((s1, none), preemption_by_priority inIntr currPriority ready_list)

/-! ## Condition variables (synch.c) -/

/-- synch.c `struct semaphore_elem`: the per-call slot of `cond_wait`,
owning an embedded semaphore. -/
structure SemaphoreElem where
  semaphore : Semaphore
  deriving Repr, DecidableEq

/-- synch.c `compare_sema_priority`: reads the front of each slot's
embedded waiters list and compares the two threads' priorities.  In C
the front of an empty list is the sentinel and the read is garbage;
the embedding returns `none` there. -/
def compare_sema_priority (a b : SemaphoreElem) : Option Bool :=
  match a.semaphore.waiters, b.semaphore.waiters with
  | ta :: _, tb :: _ => some (compare_ready_priority ta tb)
  | _, _ => none

/-- The comparator invocations `list_insert_ordered` performs while
inserting `x`: it tests `x` against each element in turn, stopping
when the comparator first answers `true` (insertion point found); a
`none` answer is an undefined read in C, and the model stops
there. -/
def insert_ordered_calls (less : α → α → Option Bool) (x : α) :
    List α → List (α × α)
  | [] => []
  | y :: ys =>
    (x, y) ::
      match less x y with
      | some true => []
      | some false => insert_ordered_calls less x ys
      | none => []

/-- The slot `cond_wait` builds before inserting: `sema_init(&waiter.semaphore, 0)`
gives it value 0 and an empty waiters list; the calling thread parks
on it only later, at the `sema_down`. -/
def cond_wait_slot : SemaphoreElem :=
  { semaphore := sema_init 0 }

/-- The comparator calls made by `cond_wait`'s
`list_insert_ordered(&cond->waiters, &waiter.elem, compare_sema_priority, NULL)`. -/
def cond_wait_insert_calls (cvWaiters : List SemaphoreElem) :
    List (SemaphoreElem × SemaphoreElem) :=
  insert_ordered_calls compare_sema_priority cond_wait_slot cvWaiters

/-- synch.c `cond_signal`: with a non-empty waiters list, re-sort it
and pop the front slot, whose semaphore gets the `sema_up`.  The
comparator is left abstract (`less`), since the claims about this
function do not depend on its answers. -/
def cond_signal (less : SemaphoreElem → SemaphoreElem → Bool)
    (waiters : List SemaphoreElem) : List SemaphoreElem × Option SemaphoreElem :=
  match list_sort less waiters with
  | [] => (waiters, none)
  | s :: rest => (rest, some s)

/-- synch.c `cond_broadcast`'s loop body, with a fuel argument: each
iteration checks `list_empty` and, on a non-empty list, performs one
`cond_signal`.  The C loop carries no fuel; that the fuel
`w.length` suffices to reach the empty list — one slot leaves per
iteration — is the termination theorem proved below. -/
def cond_broadcast_go (less : SemaphoreElem → SemaphoreElem → Bool) :
    Nat → List SemaphoreElem → Nat
  | 0, _ => 0
  | fuel + 1, w =>
    if w = [] then 0 else 1 + cond_broadcast_go less fuel (cond_signal less w).1

/-- synch.c `cond_broadcast`: `while (!list_empty(&cond->waiters))
cond_signal(cond, lock);`, run with enough fuel for one signal per
waiting slot.  Returns the number of signals performed. -/
def cond_broadcast (less : SemaphoreElem → SemaphoreElem → Bool)
    (w : List SemaphoreElem) : Nat :=
  cond_broadcast_go less w.length w

/-! ## The timer (devices/timer.c) -/

/-- The slice length of thread.c (`TIME_SLICE`). -/
def TIME_SLICE : Nat := 4

/-- The timer-visible kernel state: the monotonic tick counter, the
slice counter `thread_ticks`, the yield-on-return flag the ISR may
request, and the sleep list ordered by wakeup tick. -/
structure TimerState where
  ticks : Int
  thread_ticks : Nat
  yield_on_return : Bool
  sleep_list : List Thread
  deriving Repr, DecidableEq

/-- thread.c `thread_tick`, the slice accounting the ISR runs: the
slice counter is incremented and, on reaching `TIME_SLICE`, a yield on
return is requested.  (The statistics buckets it also bumps are not
modelled.) -/
def thread_tick (st : TimerState) : TimerState :=
  let tt := st.thread_ticks + 1
  { st with
      thread_ticks := tt
      yield_on_return := if tt ≥ TIME_SLICE then true else st.yield_on_return }

/-- timer.c `timer_interrupt`'s drain loop: while the front of the
sleep list has `wakeup_tick ≤ now`, pop and unblock it; stop at the
first entry still in the future.  Returns the woken prefix (in order)
and the remaining list. -/
def drain_sleepers (now : Int) : List Thread → List Thread × List Thread
  | [] => ([], [])
  | t :: rest =>
    if t.wakeup_tick ≤ now then
      let p := drain_sleepers now rest
      (t :: p.1, p.2)
    else ([], t :: rest)

/-- timer.c `timer_interrupt`: increment `ticks`, run `thread_tick`,
then drain the expired front of the sleep list.  Returns the new state
and the threads unblocked this tick, in wake order. -/
def timer_interrupt (st : TimerState) : TimerState × List Thread :=
  let st1 := thread_tick { st with ticks := st.ticks + 1 }
  let p := drain_sleepers st1.ticks st1.sleep_list
  ({ st1 with sleep_list := p.2 }, p.1)

/-- timer.c `timer_sleep`: read the current tick, set the caller's
`wakeup_tick = start + ticks`, insert it into the sleep list ordered
by `compare_tick`, and call `thread_block()` — unconditionally, on
every path.  The returned flag records that the caller blocked. -/
def timer_sleep (n : Int) (t : Thread) (st : TimerState) : TimerState × Bool :=
  let t1 := { t with wakeup_tick := st.ticks + n }
  ({ st with sleep_list := list_insert_ordered compare_tick t1 st.sleep_list }, true)

/-- Run the timer ISR `k` times, logging each woken thread as a
(tick value at wake, tid) event. -/
def run_timer (k : Nat) (st : TimerState) : TimerState × List (Int × Nat) :=
  match k with
  | 0 => (st, [])
  | k + 1 =>
    let p := timer_interrupt st
    let q := run_timer k p.1
    (q.1, p.2.map (fun t => (p.1.ticks, t.tid)) ++ q.2)

/-! ## The semaphore invariant of spec section 8, and concrete instances -/

/-- Spec section 8: the waiters list is sorted by priority descending,
and a strictly positive value implies the waiters list is empty. -/
def SemaInv (s : Semaphore) : Prop :=
  SortedByPriority s.waiters ∧ (0 < s.value → s.waiters = [])

/-- The semaphore states reachable through the public operations:
an init, and every state an attempted down (either outcome), a
try_down or an up produces from a reachable one. -/
inductive Reachable : Semaphore → Prop where
  | init (v : Nat) : Reachable (sema_init v)
  | down_blocked (t : Thread) (s s1 : Semaphore) :
      Reachable s → sema_down_step t s = DownResult.blocked s1 → Reachable s1
  | down_acquired (t : Thread) (s s1 : Semaphore) :
      Reachable s → sema_down_step t s = DownResult.acquired s1 → Reachable s1
  | try_down (s : Semaphore) : Reachable s → Reachable (sema_try_down s).1
  | up (s : Semaphore) : Reachable s → Reachable (sema_up s).1

/-- Lock handle A of the multi-lock release scenario. -/
def lockA : Nat := 0

/-- Lock handle B of the multi-lock release scenario. -/
def lockB : Nat := 1

/-- Donor H1 at priority 40, blocked on lock A. -/
def donorH1 : Thread :=
  { tid := 1, priority := 40, original_priority := 40,
    waiting_lock := some lockA, wakeup_tick := 0 }

/-- Donor H2 at priority 50, blocked on lock B. -/
def donorH2 : Thread :=
  { tid := 2, priority := 50, original_priority := 50,
    waiting_lock := some lockB, wakeup_tick := 0 }

/-- Thread T of the scenario: base 31, donated up to 50, donors kept
in descending priority. -/
def threadT : CurrentThread :=
  { priority := 50, original_priority := 31, donators := [donorH2, donorH1] }

/-- A waiter at priority 30. -/
def waiterHigh : Thread :=
  { tid := 1, priority := 30, original_priority := 30,
    waiting_lock := none, wakeup_tick := 0 }

/-- A waiter at priority 20. -/
def waiterLow : Thread :=
  { tid := 2, priority := 20, original_priority := 20,
    waiting_lock := none, wakeup_tick := 0 }

/-- A semaphore with two parked waiters, as produced by two blocked
downs on a semaphore initialized to 0. -/
def semaTwoWaiters : Semaphore :=
  { value := 0, waiters := [waiterHigh, waiterLow] }

/-- A semaphore whose waiters hold a priority tie at the front:
tid 1 and tid 2 both at 30 (tid 1 inserted first), tid 3 at 20. -/
def semaTie : Semaphore :=
  { value := 0,
    waiters :=
      [{ tid := 1, priority := 30, original_priority := 30,
         waiting_lock := none, wakeup_tick := 0 },
       { tid := 2, priority := 30, original_priority := 30,
         waiting_lock := none, wakeup_tick := 0 },
       { tid := 3, priority := 20, original_priority := 20,
         waiting_lock := none, wakeup_tick := 0 }] }

/-- A waiter parked on a semaphore reached by `sema_up` from an
interrupt handler; its priority 20 outranks the interrupted thread. -/
def isrSema : Semaphore :=
  { value := 0,
    waiters :=
      [{ tid := 2, priority := 20, original_priority := 20,
         waiting_lock := none, wakeup_tick := 0 }] }

/-- A thread already parked on a condition-variable slot. -/
def parkedThread : Thread :=
  { tid := 3, priority := 30, original_priority := 30,
    waiting_lock := none, wakeup_tick := 0 }

/-- A condition-variable slot whose embedded semaphore has
`parkedThread` parked on it. -/
def parkedSlot : SemaphoreElem :=
  { semaphore := { value := 0, waiters := [parkedThread] } }

/-- Sleeper A of the timer scenario: priority 63, sleeps 30 ticks. -/
def sleeperA : Thread :=
  { tid := 1, priority := 63, original_priority := 63,
    waiting_lock := none, wakeup_tick := 0 }

/-- Sleeper B of the timer scenario: priority 1, sleeps 10 ticks. -/
def sleeperB : Thread :=
  { tid := 2, priority := 1, original_priority := 1,
    waiting_lock := none, wakeup_tick := 0 }

/-- Sleeper C of the timer scenario: priority 31, sleeps 20 ticks. -/
def sleeperC : Thread :=
  { tid := 3, priority := 31, original_priority := 31,
    waiting_lock := none, wakeup_tick := 0 }

/-- The timer at tick T0 = 0, empty sleep list. -/
def timerStart : TimerState :=
  { ticks := 0, thread_ticks := 0, yield_on_return := false, sleep_list := [] }

/-- Spec scenario 6: at tick T0, A, B and C call sleep(30), sleep(10)
and sleep(20). -/
def timerScenario : TimerState :=
  (timer_sleep 20 sleeperC
    (timer_sleep 10 sleeperB
      (timer_sleep 30 sleeperA timerStart).1).1).1

/-- A thread calling `timer_sleep` with a non-positive argument. -/
def sleeperW : Thread :=
  { tid := 1, priority := 31, original_priority := 31,
    waiting_lock := none, wakeup_tick := 0 }

/-- A timer state at tick 100 with an empty sleep list. -/
def timerW : TimerState :=
  { ticks := 100, thread_ticks := 0, yield_on_return := false, sleep_list := [] }

/-! ## Lemmas about the list operations -/

theorem sort_insert_length (less : α → α → Bool) (x : α) (l : List α) :
    (sort_insert less x l).length = l.length + 1 := by
  induction l with
  | nil => rfl
  | cons y ys ih =>
    simp only [sort_insert]
    split <;> simp [ih]

theorem list_sort_length (less : α → α → Bool) (l : List α) :
    (list_sort less l).length = l.length := by
  induction l with
  | nil => rfl
  | cons x xs ih => simp [list_sort, sort_insert_length, ih]

theorem list_insert_ordered_length (less : α → α → Bool) (x : α) (l : List α) :
    (list_insert_ordered less x l).length = l.length + 1 := by
  induction l with
  | nil => rfl
  | cons y ys ih =>
    simp only [list_insert_ordered]
    split <;> simp [ih]

theorem mem_list_insert_ordered (less : α → α → Bool) (x : α) (l : List α) (u : α) :
    u ∈ list_insert_ordered less x l ↔ u = x ∨ u ∈ l := by
  induction l with
  | nil => simp [list_insert_ordered]
  | cons y ys ih =>
    simp only [list_insert_ordered]
    split
    · simp [or_comm, or_assoc, or_left_comm]
    · simp [ih]
      tauto

theorem mem_sort_insert (less : α → α → Bool) (x : α) (l : List α) (u : α) :
    u ∈ sort_insert less x l ↔ u = x ∨ u ∈ l := by
  induction l with
  | nil => simp [sort_insert]
  | cons y ys ih =>
    simp only [sort_insert]
    split
    · simp [ih]
      tauto
    · simp [or_comm, or_assoc, or_left_comm]

theorem mem_list_sort (less : α → α → Bool) (l : List α) (u : α) :
    u ∈ list_sort less l ↔ u ∈ l := by
  induction l with
  | nil => simp [list_sort]
  | cons x xs ih => simp [list_sort, mem_sort_insert, ih]

/-- The head of the stable sort by `compare_ready_priority` is the
first element of the input attaining the maximal priority: every
element compares no higher, and searching the input for the first
element of at least that priority finds exactly the head. -/
theorem list_sort_head_first_max (l : List Thread) (hne : l ≠ []) :
    ∃ t rest, list_sort compare_ready_priority l = t :: rest ∧
      (∀ u ∈ l, u.priority ≤ t.priority) ∧
      l.find? (fun u => decide (t.priority ≤ u.priority)) = some t := by
  induction l with
  | nil => exact absurd rfl hne
  | cons x xs ih =>
    cases xs with
    | nil =>
      refine ⟨x, [], rfl, ?_, ?_⟩
      · intro u hu
        simp only [List.mem_singleton] at hu
        simp [hu]
      · simp [List.find?]
    | cons y ys =>
      obtain ⟨t, rest, hsort, hmax, hfind⟩ := ih (by simp)
      simp only [list_sort] at hsort ⊢
      rw [hsort]
      simp only [sort_insert]
      by_cases hlt : compare_ready_priority t x
      · -- the sorted tail's head strictly outranks x and stays in front
        rw [if_pos hlt]
        simp only [compare_ready_priority, decide_eq_true_eq] at hlt
        refine ⟨t, sort_insert compare_ready_priority x rest, rfl, ?_, ?_⟩
        · intro u hu
          rcases List.mem_cons.mp hu with h | h
          · exact le_of_lt (h ▸ hlt)
          · exact hmax u h
        · rw [List.find?]
          simp only [not_le.mpr hlt, decide_False]
          exact hfind
      · -- x attains the maximum and becomes the new head
        rw [if_neg hlt]
        simp only [compare_ready_priority, decide_eq_true_eq, not_lt] at hlt
        refine ⟨x, t :: rest, rfl, ?_, ?_⟩
        · intro u hu
          rcases List.mem_cons.mp hu with h | h
          · exact h ▸ le_refl _
          · exact le_trans (hmax u h) hlt
        · rw [List.find?]
          simp

theorem head_list_insert_ordered (less : α → α → Bool) (x : α) (l : List α) :
    (list_insert_ordered less x l).head? = some x ∨
      (list_insert_ordered less x l).head? = l.head? := by
  cases l with
  | nil => left; rfl
  | cons y ys =>
    simp only [list_insert_ordered]
    split
    · left; rfl
    · right; rfl

theorem list_insert_ordered_sorted (x : Thread) (l : List Thread)
    (h : SortedByPriority l) :
    SortedByPriority (list_insert_ordered compare_ready_priority x l) := by
  induction l with
  | nil => simp [list_insert_ordered, SortedByPriority]
  | cons y ys ih =>
    simp only [list_insert_ordered]
    by_cases hc : compare_ready_priority x y
    · rw [if_pos hc]
      simp only [compare_ready_priority, decide_eq_true_eq] at hc
      exact List.chain'_cons.mpr ⟨le_of_lt hc, h⟩
    · rw [if_neg hc]
      simp only [compare_ready_priority, decide_eq_true_eq, not_lt] at hc
      have hys : SortedByPriority ys := h.tail
      have hhead := List.chain'_cons'.mp h
      refine List.chain'_cons'.mpr ⟨?_, ih hys⟩
      intro z hz
      rcases head_list_insert_ordered compare_ready_priority x ys with he | he
      · rw [he] at hz
        simp only [Option.mem_def, Option.some.injEq] at hz
        exact hz ▸ hc
      · rw [he] at hz
        exact hhead.1 z hz

theorem head_sort_insert (less : α → α → Bool) (x : α) (l : List α) :
    (sort_insert less x l).head? = some x ∨
      (sort_insert less x l).head? = l.head? := by
  cases l with
  | nil => left; rfl
  | cons y ys =>
    simp only [sort_insert]
    split
    · right; rfl
    · left; rfl

theorem sort_insert_sorted (x : Thread) (l : List Thread)
    (h : SortedByPriority l) :
    SortedByPriority (sort_insert compare_ready_priority x l) := by
  induction l with
  | nil => simp [sort_insert, SortedByPriority]
  | cons y ys ih =>
    simp only [sort_insert]
    by_cases hc : compare_ready_priority y x
    · rw [if_pos hc]
      simp only [compare_ready_priority, decide_eq_true_eq] at hc
      have hys : SortedByPriority ys := h.tail
      have hhead := List.chain'_cons'.mp h
      refine List.chain'_cons'.mpr ⟨?_, ih hys⟩
      intro z hz
      rcases head_sort_insert compare_ready_priority x ys with he | he
      · rw [he] at hz
        simp only [Option.mem_def, Option.some.injEq] at hz
        exact hz ▸ le_of_lt hc
      · rw [he] at hz
        exact hhead.1 z hz
    · rw [if_neg hc]
      simp only [compare_ready_priority, decide_eq_true_eq, not_lt] at hc
      exact List.chain'_cons.mpr ⟨hc, h⟩

theorem list_sort_sorted (l : List Thread) :
    SortedByPriority (list_sort compare_ready_priority l) := by
  induction l with
  | nil => simp [list_sort, SortedByPriority]
  | cons x xs ih => exact sort_insert_sorted x _ ih


/-! ## Supporting lemmas for the timer and donation claims -/

theorem drain_sleepers_spec (now : Int) (l : List Thread) :
    drain_sleepers now l =
      (l.takeWhile (fun t => decide (t.wakeup_tick ≤ now)),
       l.dropWhile (fun t => decide (t.wakeup_tick ≤ now))) := by
  induction l with
  | nil => rfl
  | cons t rest ih =>
    simp only [drain_sleepers, List.takeWhile, List.dropWhile]
    by_cases h : t.wakeup_tick ≤ now
    · rw [if_pos h]
      simp only [h, decide_True, ih]
    · rw [if_neg h]
      simp only [h, decide_False]

/-- An element with an expired deadline stays inside the expired
prefix after being inserted by `compare_tick`, whatever the rest of
the list: every element the insertion walks past has a deadline no
later than the new element's. -/
theorem mem_takeWhile_insert_tick (x : Thread) (l : List Thread) (now : Int)
    (hx : x.wakeup_tick ≤ now) :
    x ∈ (list_insert_ordered compare_tick x l).takeWhile
        (fun t => decide (t.wakeup_tick ≤ now)) := by
  induction l with
  | nil =>
    simp [list_insert_ordered, List.takeWhile, hx]
  | cons y ys ih =>
    simp only [list_insert_ordered]
    by_cases hc : compare_tick x y
    · rw [if_pos hc]
      simp [List.takeWhile, hx]
    · rw [if_neg hc]
      simp only [compare_tick, decide_eq_true_eq, not_lt] at hc
      have hy : y.wakeup_tick ≤ now := le_trans hc hx
      simp only [List.takeWhile, hy, decide_True]
      exact List.mem_cons_of_mem y ih

/-- The donation walk along a blocked-holder chain: starting at holder
`k` of a chain ending at holder `n`, with `f` hops of fuel left and
every remaining holder below the acquirer's priority, the walk raises
exactly the holders within fuel range and leaves everything else
untouched. -/
theorem donate_loop_chain (n f : Nat) :
    ∀ (k : Nat) (st : DonationState),
    (∀ i, st.waitingLock i = if 1 ≤ i ∧ i < n then some i else none) →
    (∀ l, st.lockHolder l = some (l + 1)) →
    (∀ i, k ≤ i → i ≤ n → st.priority i < st.priority 0) →
    1 ≤ k → k ≤ n →
    ∀ i, (donate_loop 0 (some k) f st).priority i =
      if k ≤ i ∧ i ≤ n ∧ i < k + f then st.priority 0 else st.priority i := by
  induction f with
  | zero =>
    intro k st _ _ _ _ _ i
    simp only [donate_loop]
    have hcond : ¬(k ≤ i ∧ i ≤ n ∧ i < k + 0) := by omega
    rw [if_neg hcond]
  | succ f ih =>
    intro k st hwl hlh hlow hk1 hkn i
    have hk0 : k ≠ 0 := by omega
    have hcmp : st.priority 0 > st.priority k := hlow k le_rfl hkn
    simp only [donate_loop, gt_iff_lt, hcmp, if_pos]
    by_cases hkltn : k < n
    · have hwlk : ({ st with
          priority := fun t => if t = k then st.priority 0 else st.priority t
          : DonationState }).waitingLock k = some k := by
        simp only [hwl]
        rw [if_pos ⟨hk1, hkltn⟩]
      rw [hwlk]
      simp only [hlh]
      set st1 : DonationState :=
        { st with priority := fun t => if t = k then st.priority 0 else st.priority t }
        with hst1
      have hp0 : st1.priority 0 = st.priority 0 := by
        simp [hst1, hk0, Ne.symm hk0]
      have hres := ih (k + 1) st1
        (by intro j; simp [hst1, hwl])
        (by intro l; simp [hst1, hlh])
        (by
          intro j hj1 hj2
          have hjk : j ≠ k := by omega
          simp only [hst1, hjk, if_false, Ne.symm hk0]
          simpa [hjk, Ne.symm hk0] using hlow j (by omega) hj2)
        (by omega) (by omega) i
      rw [hres]
      by_cases hik : i = k
      · have hc1 : ¬(k + 1 ≤ i ∧ i ≤ n ∧ i < k + 1 + f) := by omega
        have hc2 : k ≤ i ∧ i ≤ n ∧ i < k + (f + 1) := by omega
        rw [if_neg hc1, if_pos hc2]
        simp [hst1, hik]
      · have heq : st1.priority i = st.priority i := by simp [hst1, hik]
        rw [hp0]
        by_cases hc : k + 1 ≤ i ∧ i ≤ n ∧ i < k + 1 + f
        · have hc2 : k ≤ i ∧ i ≤ n ∧ i < k + (f + 1) := by omega
          rw [if_pos hc, if_pos hc2]
        · have hc2 : ¬(k ≤ i ∧ i ≤ n ∧ i < k + (f + 1)) := by omega
          rw [if_neg hc, if_neg hc2, heq]
    · -- the chain ends at holder k = n: its waiting_lock is null, the walk stops
      have hkeqn : k = n := by omega
      have hwlk : ({ st with
          priority := fun t => if t = k then st.priority 0 else st.priority t
          : DonationState }).waitingLock k = none := by
        simp only [hwl]
        rw [if_neg (by omega)]
      rw [hwlk]
      by_cases hik : i = k
      · have hc : k ≤ i ∧ i ≤ n ∧ i < k + (f + 1) := by omega
        rw [if_pos hc]
        simp [hik]
      · have hc : ¬(k ≤ i ∧ i ≤ n ∧ i < k + (f + 1)) := by omega
        rw [if_neg hc]
        simp [hik]

/-! ## Claim theorems -/

/-- C2: evaluation at the failing input.  `sema_up` called from an
interrupt handler (`inIntr = true`) on a semaphore with a parked
waiter at priority 20, interrupted thread at priority 10: the
preemption check calls `thread_yield` directly, and its
`ASSERT(!intr_context())` halts the kernel instead of deferring to the
timer's `intr_yield_on_return` path; the same call from thread context
yields.  `sema_up` itself never blocks the caller — the waiters list
it leaves never contains the caller — but the claimed ISR-deferral
does not exist in `preemption_by_priority`. -/
theorem sema_up_isr_panics :
    (sema_up_run true 10 [] isrSema).2 = PreemptOutcome.panic ∧
    (sema_up_run false 10 [] isrSema).2 = PreemptOutcome.yielded := by
  decide

/-- C5: `lock_release` removes from the holder's donor list exactly
the donors blocked on the released lock (a filter keeping every donor
with a different `waiting_lock`), and in the two-lock scenario —
T at base 31 holding A and B, H1@40 waiting on A, H2@50 waiting on
B — releasing A keeps priority 50 with H2 still a donor, and releasing
B then returns T to 31 with no donors. -/
theorem lock_release_selective (l : Nat) (ds : List Thread) :
    remove_donations l ds = ds.filter (fun d => decide (d.waiting_lock ≠ some l)) ∧
    (lock_release_donation lockA threadT).donators = [donorH2] ∧
    (lock_release_donation lockA threadT).priority = 50 ∧
    (lock_release_donation lockB (lock_release_donation lockA threadT)).donators = [] ∧
    (lock_release_donation lockB (lock_release_donation lockA threadT)).priority = 31 := by
  refine ⟨?_, by decide, by decide, by decide, by decide⟩
  induction ds with
  | nil => rfl
  | cons d rest ih =>
    simp only [remove_donations, List.filter]
    by_cases h : d.waiting_lock = some l
    · simp [h, ih]
    · simp [h, ih]

/-- C6: after `thread_set_priority p`, `thread_get_priority` returns
`max p donators.front.priority` when the donor list is non-empty and
`p` when it is empty; and `recaculate_priority` resets the priority to
the base one and raises it to the front donor's priority when that is
larger. -/
theorem set_priority_get_priority (p : Int) (t : CurrentThread) :
    (thread_get_priority (thread_set_priority p t) =
      match t.donators with
      | [] => p
      | top :: _ => max p top.priority) ∧
    ((recaculate_priority t).priority =
      match t.donators with
      | [] => t.original_priority
      | top :: _ => max t.original_priority top.priority) := by
  constructor
  · simp only [thread_get_priority, thread_set_priority, recaculate_priority]
    rcases t.donators with _ | ⟨top, rest⟩
    · rfl
    · simp only [max_def]
      split <;> split <;> dsimp only at * <;> omega
  · simp only [recaculate_priority]
    rcases t.donators with _ | ⟨top, rest⟩
    · rfl
    · simp only [max_def]
      split <;> split <;> dsimp only at * <;> omega

/-- C7 counterexample: the state with value 0 and two parked waiters
is reached by an init to 0 followed by two blocked downs, and the `up`
on it pops only the front waiter while incrementing the value, leaving
value 1 with tid 2 still parked — a strictly positive value with a
non-empty waiters list. -/
theorem sema_value_invariant_cex :
    sema_down_step waiterHigh (sema_init 0) =
      DownResult.blocked { value := 0, waiters := [waiterHigh] } ∧
    sema_down_step waiterLow { value := 0, waiters := [waiterHigh] } =
      DownResult.blocked semaTwoWaiters ∧
    (sema_up semaTwoWaiters).1 = { value := 1, waiters := [waiterLow] } ∧
    ¬(0 < (sema_up semaTwoWaiters).1.value → (sema_up semaTwoWaiters).1.waiters = []) := by
  decide

/-- C1: the donation walk started by `lock_acquire` at the lock's
holder raises each blocked holder's priority to the acquirer's when it
is lower, following `waiting_lock` edges for up to 8 hops: in a chain
of 8 blocked holders every holder, the tail included, is raised; in a
chain of 9 the first 8 are raised and the tail holder's priority is
untouched. -/
theorem donate_priority_chain_depth (currP : Int) (pr : Nat → Int)
    (hlow : ∀ i, 1 ≤ i → i ≤ 9 → pr i < currP) :
    (∀ i, 1 ≤ i → i ≤ 8 →
      (donate_priority 0 (some 1) (chainState currP pr 8)).priority i = currP) ∧
    (∀ i, 1 ≤ i → i ≤ 8 →
      (donate_priority 0 (some 1) (chainState currP pr 9)).priority i = currP) ∧
    (donate_priority 0 (some 1) (chainState currP pr 9)).priority 9 = pr 9 := by
  have hpr0 : ∀ n, (chainState currP pr n).priority 0 = currP := by
    intro n
    simp [chainState]
  have hlow8 : ∀ i, 1 ≤ i → i ≤ 8 →
      (chainState currP pr 8).priority i < (chainState currP pr 8).priority 0 := by
    intro i h1 h2
    have hne : i ≠ 0 := by omega
    simp only [chainState, hne, if_false, if_neg hne]
    simpa using hlow i h1 (by omega)
  have hlow9 : ∀ i, 1 ≤ i → i ≤ 9 →
      (chainState currP pr 9).priority i < (chainState currP pr 9).priority 0 := by
    intro i h1 h2
    have hne : i ≠ 0 := by omega
    simp only [chainState, hne, if_false, if_neg hne]
    simpa using hlow i h1 h2
  have h8 := donate_loop_chain 8 8 1 (chainState currP pr 8)
    (fun i => rfl) (fun l => rfl) hlow8 le_rfl (by omega)
  have h9 := donate_loop_chain 9 8 1 (chainState currP pr 9)
    (fun i => rfl) (fun l => rfl) hlow9 le_rfl (by omega)
  refine ⟨?_, ?_, ?_⟩
  · intro i h1 h2
    rw [donate_priority, h8 i, if_pos ⟨h1, h2, by omega⟩, hpr0]
  · intro i h1 h2
    rw [donate_priority, h9 i, if_pos ⟨h1, by omega, by omega⟩, hpr0]
  · rw [donate_priority, h9 9, if_neg (by omega)]
    simp [chainState]

/-- C1 witness: a concrete 9-chain of holders at priority 10 under an
acquirer at 50 — holder 8 is raised to 50, holder 9 keeps 10 — and on
the 8-chain the tail holder 8 is raised. -/
theorem donate_priority_chain_depth_witness :
    (donate_priority 0 (some 1) (chainState 50 (fun _ => 10) 9)).priority 8 = 50 ∧
    (donate_priority 0 (some 1) (chainState 50 (fun _ => 10) 9)).priority 9 = 10 ∧
    (donate_priority 0 (some 1) (chainState 50 (fun _ => 10) 8)).priority 8 = 50 := by
  have h := donate_priority_chain_depth 50 (fun _ => 10) (by intro i h1 h2; norm_num)
  exact ⟨h.2.1 8 (by norm_num) (by norm_num), h.2.2,
         h.1 8 (by norm_num) (by norm_num)⟩

/-- C3 counterexample: on a condition variable that already has one
slot with a parked thread, `cond_wait`'s ordered insertion evaluates
the comparator on its fresh slot, whose embedded semaphore's waiters
list is still empty — the thread parks on it only at the later
`sema_down` — so it is false that the front of every compared slot's
waiters list exists. -/
theorem cond_wait_comparator_unparked_cex :
    ¬(∀ c ∈ cond_wait_insert_calls [parkedSlot],
        c.1.semaphore.waiters ≠ [] ∧ c.2.semaphore.waiters ≠ []) := by
  decide

/-- C3 amended: `cond_wait` inserts its per-call slot into
`cv.waiters` with `compare_sema_priority` before releasing the lock
and before parking on the slot's semaphore, so whenever `cv.waiters`
is non-empty at that insertion the comparator is evaluated on the new
slot while its embedded semaphore's waiters list is empty, reading the
front of an empty list (the undefined read, `none` here). -/
theorem cond_wait_comparator_reads_empty (cvWaiters : List SemaphoreElem)
    (h : cvWaiters ≠ []) :
    ∃ c ∈ cond_wait_insert_calls cvWaiters,
      c.1.semaphore.waiters = [] ∧ compare_sema_priority c.1 c.2 = none := by
  match cvWaiters with
  | [] => exact absurd rfl h
  | y :: ys =>
    refine ⟨(cond_wait_slot, y), ?_, rfl, ?_⟩
    · simp only [cond_wait_insert_calls, insert_ordered_calls]
      exact List.mem_cons_self _ _
    · rcases hw : y.semaphore.waiters with _ | ⟨t, ts⟩ <;>
        simp [compare_sema_priority, cond_wait_slot, sema_init, hw]

/-- C3 amended, witness: the concrete one-slot condition variable. -/
theorem cond_wait_comparator_reads_empty_witness :
    ([parkedSlot] : List SemaphoreElem) ≠ [] ∧
    (∃ c ∈ cond_wait_insert_calls [parkedSlot],
      c.1.semaphore.waiters = [] ∧ compare_sema_priority c.1 c.2 = none) :=
  ⟨by decide, cond_wait_comparator_reads_empty [parkedSlot] (by decide)⟩

/-- C4: an `up` on a semaphore with a non-empty waiters list unblocks
a thread `t` that (i) no waiter outranks — the highest effective
priority at that moment — and (ii) is the first-inserted waiter among
those of that highest priority: searching the pre-`up` waiters list in
insertion order for the first entry with priority at least `t`'s finds
exactly `t` (the stable sort with the strict comparator keeps FIFO
order among equals). -/
theorem sema_up_wakes_highest_first (s : Semaphore) (hne : s.waiters ≠ []) :
    ∃ t s1, sema_up s = (s1, some t) ∧
      (∀ u ∈ s.waiters, u.priority ≤ t.priority) ∧
      s.waiters.find? (fun u => decide (t.priority ≤ u.priority)) = some t := by
  obtain ⟨t, rest, hsort, hmax, hfind⟩ := list_sort_head_first_max s.waiters hne
  refine ⟨t, { value := s.value + 1, waiters := rest }, ?_, hmax, hfind⟩
  simp [sema_up, hsort]

/-- C4 witness: a tie at priority 30 between tid 1 (inserted first)
and tid 2, with tid 3 at 20 behind them. -/
theorem sema_up_wakes_highest_first_witness :
    semaTie.waiters ≠ [] ∧
    (∃ t s1, sema_up semaTie = (s1, some t) ∧
      (∀ u ∈ semaTie.waiters, u.priority ≤ t.priority) ∧
      semaTie.waiters.find? (fun u => decide (t.priority ≤ u.priority)) = some t) :=
  ⟨by decide, sema_up_wakes_highest_first semaTie (by decide)⟩

/-- C7 amended: every semaphore reachable through the public
operations has its waiters list sorted by effective priority
descending — init starts empty, a blocked down inserts in order, an
acquiring down and try_down leave the waiters alone, and up re-sorts
before popping the front, so it restores sortedness from any state;
the half `value > 0 → waiters empty` holds after init, is produced
unconditionally by a blocked down, is preserved by an acquiring down
and by try_down, and is restored by up only when at most one waiter is
parked (an up with two or more waiters leaves a positive value with a
waiter still parked, as the counterexample shows). -/
theorem sema_invariant_ops :
    (∀ s, Reachable s → SortedByPriority s.waiters) ∧
    (∀ v, SemaInv (sema_init v)) ∧
    (∀ t s s1, sema_down_step t s = DownResult.blocked s1 →
      (0 < s1.value → s1.waiters = [])) ∧
    (∀ t s s1, (0 < s.value → s.waiters = []) →
      sema_down_step t s = DownResult.acquired s1 →
      (0 < s1.value → s1.waiters = [])) ∧
    (∀ s, (0 < s.value → s.waiters = []) →
      (0 < (sema_try_down s).1.value → (sema_try_down s).1.waiters = [])) ∧
    (∀ s, s.waiters.length ≤ 1 → (sema_up s).1.waiters = []) := by
  have hup : ∀ s : Semaphore, SortedByPriority (sema_up s).1.waiters := by
    intro s
    simp only [sema_up]
    split
    · exact List.chain'_nil
    · rename_i t rest hsort
      have := list_sort_sorted s.waiters
      rw [hsort] at this
      exact this.tail
  refine ⟨?_, ?_, ?_, ?_, ?_, ?_⟩
  · intro s hreach
    induction hreach with
    | init v => exact List.chain'_nil
    | down_blocked t s s1 _ heq ih =>
      simp only [sema_down_step] at heq
      split at heq
      · cases heq
        exact list_insert_ordered_sorted t s.waiters ih
      · cases heq
    | down_acquired t s s1 _ heq ih =>
      simp only [sema_down_step] at heq
      split at heq
      · cases heq
      · cases heq
        exact ih
    | try_down s _ ih =>
      simp only [sema_try_down]
      split
      · exact ih
      · exact ih
    | up s _ _ => exact hup s
  · intro v
    exact ⟨List.chain'_nil, fun _ => rfl⟩
  · intro t s s1 heq
    simp only [sema_down_step] at heq
    split at heq
    · cases heq
      intro h
      simp at h
    · cases heq
  · intro t s s1 himp heq
    simp only [sema_down_step] at heq
    split at heq
    · cases heq
    · rename_i hv
      cases heq
      exact fun _ => himp (by omega)
  · intro s himp
    simp only [sema_try_down]
    split
    · rename_i hv
      exact fun _ => himp hv
    · exact himp
  · intro s hlen
    rcases hw : s.waiters with _ | ⟨t, ts⟩
    · simp only [sema_up, hw, list_sort]
    · rcases ts with _ | ⟨t2, ts2⟩
      · simp only [sema_up, hw, list_sort, sort_insert]
      · rw [hw] at hlen
        simp at hlen

/-- C7 amended, witness: the two-waiter state — built by an init to 0
and two blocked downs, so reachable — has sorted waiters, and an up on
a one-waiter semaphore empties its waiters list. -/
theorem sema_invariant_ops_witness :
    SortedByPriority semaTwoWaiters.waiters ∧
    (sema_up { value := 0, waiters := [waiterHigh] }).1.waiters = [] := by
  have hreach : Reachable semaTwoWaiters :=
    Reachable.down_blocked waiterLow { value := 0, waiters := [waiterHigh] } semaTwoWaiters
      (Reachable.down_blocked waiterHigh (sema_init 0)
        { value := 0, waiters := [waiterHigh] } (Reachable.init 0) (by decide))
      (by decide)
  exact ⟨sema_invariant_ops.1 semaTwoWaiters hreach,
         sema_invariant_ops.2.2.2.2.2 { value := 0, waiters := [waiterHigh] } (by decide)⟩

/-- C8: the timer ISR increments the tick counter, runs the
time-slice accounting of `thread_tick` (the slice counter advances),
and then unblocks exactly the longest prefix of the sleep list whose
`wakeup_tick` is at most the new tick value, leaving the rest —
stopping at the first non-expired entry; in the scenario where A, B
and C sleep 30, 10 and 20 ticks from tick T0 = 0, the wake events over
the next 30 ticks are B at T0+10, C at T0+20 and A at T0+30,
regardless of their priorities 63, 1 and 31. -/
theorem timer_interrupt_order_and_scenario :
    (∀ st, (timer_interrupt st).1.ticks = st.ticks + 1) ∧
    (∀ st, (timer_interrupt st).1.thread_ticks = st.thread_ticks + 1) ∧
    (∀ st,
      (timer_interrupt st).2 =
        st.sleep_list.takeWhile (fun t => decide (t.wakeup_tick ≤ st.ticks + 1)) ∧
      (timer_interrupt st).1.sleep_list =
        st.sleep_list.dropWhile (fun t => decide (t.wakeup_tick ≤ st.ticks + 1))) ∧
    (run_timer 30 timerScenario).2 =
      [(10, sleeperB.tid), (20, sleeperC.tid), (30, sleeperA.tid)] := by
  refine ⟨fun st => rfl, fun st => rfl, fun st => ?_, by decide⟩
  constructor
  · simp [timer_interrupt, thread_tick, drain_sleepers_spec]
  · simp [timer_interrupt, thread_tick, drain_sleepers_spec]

/-- C9: `timer_sleep n` for `n ≤ 0` still blocks the caller: the code
unconditionally inserts the caller into the sleep list with
`wakeup_tick = now + n ≤ now` and calls `thread_block`, and the very
next timer interrupt unblocks it — the inserted entry is inside the
expired prefix the ISR drains. -/
theorem timer_sleep_nonpositive_blocks (n : Int) (t : Thread) (st : TimerState)
    (hn : n ≤ 0) :
    (timer_sleep n t st).2 = true ∧
    st.ticks + n ≤ st.ticks ∧
    { t with wakeup_tick := st.ticks + n } ∈ (timer_interrupt (timer_sleep n t st).1).2 := by
  refine ⟨rfl, by omega, ?_⟩
  have hdr : (timer_interrupt (timer_sleep n t st).1).2 =
      (list_insert_ordered compare_tick { t with wakeup_tick := st.ticks + n }
          st.sleep_list).takeWhile
        (fun u => decide (u.wakeup_tick ≤ st.ticks + 1)) := by
    simp [timer_interrupt, thread_tick, timer_sleep, drain_sleepers_spec]
  rw [hdr]
  exact mem_takeWhile_insert_tick _ _ _ (by simp; omega)

/-- C9 witness: sleeping -3 ticks at tick 100 blocks and is woken by
the interrupt at tick 101. -/
theorem timer_sleep_nonpositive_blocks_witness :
    ((-3 : Int) ≤ 0) ∧
    ((timer_sleep (-3) sleeperW timerW).2 = true ∧
     timerW.ticks + (-3) ≤ timerW.ticks ∧
     { sleeperW with wakeup_tick := timerW.ticks + (-3) } ∈
       (timer_interrupt (timer_sleep (-3) sleeperW timerW).1).2) :=
  ⟨by decide, timer_sleep_nonpositive_blocks (-3) sleeperW timerW (by decide)⟩

theorem cond_signal_length (less : SemaphoreElem → SemaphoreElem → Bool)
    (w : List SemaphoreElem) (h : w ≠ []) :
    (cond_signal less w).1.length + 1 = w.length := by
  unfold cond_signal
  have hlen := list_sort_length less w
  match hs : list_sort less w with
  | [] =>
    rw [hs] at hlen
    exact absurd (List.length_eq_zero.mp hlen.symm) h
  | s :: rest =>
    rw [hs] at hlen
    simpa using hlen

theorem cond_broadcast_go_length (less : SemaphoreElem → SemaphoreElem → Bool) :
    ∀ (fuel : Nat) (w : List SemaphoreElem), w.length ≤ fuel →
      cond_broadcast_go less fuel w = w.length := by
  intro fuel
  induction fuel with
  | zero =>
    intro w hw
    have hnil : w = [] := List.length_eq_zero.mp (by omega)
    subst hnil
    rfl
  | succ fuel ih =>
    intro w hw
    simp only [cond_broadcast_go]
    split
    · rename_i he
      simp [he]
    · rename_i he
      have hsig := cond_signal_length less w he
      rw [ih (cond_signal less w).1 (by omega)]
      omega

/-- C10: `cond_broadcast` terminates on every finite waiters list:
each loop iteration runs on a non-empty list, `cond_signal` pops
exactly one slot from the (sorted) front — the list length drops by
one — and the loop performs exactly as many signals as there were
waiting slots at entry, whatever the comparator answers. -/
theorem cond_broadcast_drains (less : SemaphoreElem → SemaphoreElem → Bool)
    (w : List SemaphoreElem) :
    cond_broadcast less w = w.length ∧
    (cond_signal less w).1.length = w.length - 1 := by
  constructor
  · exact cond_broadcast_go_length less w.length w le_rfl
  · rcases hw : w with _ | ⟨x, xs⟩
    · rfl
    · have := cond_signal_length less (x :: xs) (by simp)
      omega

end Pintos
